import Mathlib

/-!
# Verification of chemprop loss functions

Shallow embedding of `src/chemprop/loss_functions.py` and
`src/chemprop/train/loss_functions.py`.

Modelling conventions:
* Tensors are lists (1-D) or lists of lists (2-D, batch axis outermost),
  with rational values standing in for floats.  All torch operations used
  by the source are elementwise, row-wise sums/cumulative sums, or
  axis-0 sums, so this list representation is exact.
* `torch.log` and `torch.sqrt` are passed as explicit function parameters
  (the source only ever relies on algebraic properties such as log 1 = 0
  and sqrt (x*x) = x for x ≥ 0, which appear as hypotheses); every
  definition stays computable, and `Rat.sqrt` instantiates the sqrt
  parameter in concrete evaluations.
* Division is the total division of `ℚ` (x / 0 = 0); places where the
  source would produce IEEE NaN/Inf are exactly the places where the
  total-division result is reached through a division by zero, and are
  discussed at the relevant theorems.  Where a claim's truth depends on
  such a place, the `FQ` refinement below (finite rationals extended
  with plus/minus infinity and NaN, with IEEE-style arithmetic) models
  the same source lines faithfully, so that NaN outcomes are provable
  rather than collapsed to 0.
* The two Python `get_loss_func` variants are modelled as total functions
  into `Except`, with one error constructor per distinct `raise` message
  shape of the source.
-/

namespace Chemprop

/-- torch promotes a boolean tensor to 0/1 values when multiplied. -/
def boolQ (b : Bool) : ℚ := if b then 1 else 0

/-- Three-list elementwise zip (torch elementwise op on three same-shape tensors). -/
def zipWith3 {α β γ δ : Type} (f : α → β → γ → δ) : List α → List β → List γ → List δ
  | a :: as, b :: bs, c :: cs => f a b c :: zipWith3 f as bs cs
  | _, _, _ => []

/-- Four-list elementwise zip (torch elementwise op on four same-shape tensors). -/
def zipWith4 {α β γ δ ε : Type} (f : α → β → γ → δ → ε) :
    List α → List β → List γ → List δ → List ε
  | a :: as, b :: bs, c :: cs, d :: ds => f a b c d :: zipWith4 f as bs cs ds
  | _, _, _, _ => []

/-- `torch.cumsum(_, axis=1)` on one row, with a running accumulator. -/
def cumsumFrom (acc : ℚ) : List ℚ → List ℚ
  | [] => []
  | x :: xs => (acc + x) :: cumsumFrom (acc + x) xs

/-- `torch.cumsum(_, axis=1)` on one row. -/
def cumsum (l : List ℚ) : List ℚ := cumsumFrom 0 l

/-- `torch.sum(_, axis=0)`: column-wise sum of a (batch, tasks) tensor.
For an empty batch the result is empty (torch would need an explicit
shape there; every claim below has a nonempty batch). -/
def colSum : List (List ℚ) → List ℚ
  | [] => []
  | [r] => r
  | r :: r2 :: rs => List.zipWith (· + ·) r (colSum (r2 :: rs))

/-- The shape of a 2-D tensor: the list of row lengths (row-count and the
length of every row, so equality of `shape2`s is equality of shapes). -/
def shape2 {α : Type} (m : List (List α)) : List Nat := m.map List.length

/-- `torch.where(model_spectra < threshold, threshold_sub, model_spectra)`
on one row, skipped when `threshold is None` (lines 157-159 / 189-191). -/
def clampRow (threshold : Option ℚ) (l : List ℚ) : List ℚ :=
  match threshold with
  | none => l
  | some th => l.map (fun x => if x < th then th else x)

/-! ## bounded_mse_loss (train/loss_functions.py lines 54-70)

The torch code is elementwise on tensors of any shape; `bounded_mse_row`
is the 1-D form, `bounded_mse_loss` the (batch, tasks) form obtained by
applying it row by row. -/

/-- `bounded_mse_loss` on 1-D tensors: two sequential `torch.where`
clamps followed by unreduced `mse_loss`. -/
def bounded_mse_row (predictions targets : List ℚ)
    (less_than_target greater_than_target : List Bool) : List ℚ :=
  let predictions1 := zipWith3
    (fun p t lt => if p < t ∧ lt = true then t else p)
    predictions targets less_than_target
  let predictions2 := zipWith3
    (fun p t gt => if p > t ∧ gt = true then t else p)
    predictions1 targets greater_than_target
  List.zipWith (fun p t => (p - t) ^ 2) predictions2 targets

/-- `bounded_mse_loss` on (batch, tasks) tensors. -/
def bounded_mse_loss (predictions targets : List (List ℚ))
    (less_than_target greater_than_target : List (List Bool)) : List (List ℚ) :=
  zipWith4 bounded_mse_row predictions targets less_than_target greater_than_target

/-! ## mcc_class_loss (train/loss_functions.py lines 104-117) -/

/-- One of the four elementwise products `f(target,pred) * data_weights * mask`
of `mcc_class_loss`, with `data_weights` the per-row scalar broadcast over
the task axis and `mask` a full (batch, tasks) boolean tensor. -/
def mccCells (f : ℚ → ℚ → ℚ) (predictions targets : List (List ℚ))
    (data_weights : List ℚ) (mask : List (List Bool)) : List (List ℚ) :=
  zipWith4
    (fun prow trow w mrow => zipWith3 (fun p t m => f t p * w * boolQ m) prow trow mrow)
    predictions targets data_weights mask

/-- `mcc_class_loss`: soft confusion-matrix sums over the batch axis, then
`1 - (TP*TN - FP*FN)/sqrt((TP+FP)*(TP+FN)*(TN+FP)*(TN+FN))` per task column. -/
def mcc_class_loss (sqrt : ℚ → ℚ) (predictions targets : List (List ℚ))
    (data_weights : List ℚ) (mask : List (List Bool)) : List ℚ :=
  let TP := colSum (mccCells (fun t p => t * p) predictions targets data_weights mask)
  let FP := colSum (mccCells (fun t p => (1 - t) * p) predictions targets data_weights mask)
  let FN := colSum (mccCells (fun t p => t * (1 - p)) predictions targets data_weights mask)
  let TN := colSum (mccCells (fun t p => (1 - t) * (1 - p)) predictions targets data_weights mask)
  zipWith4
    (fun tp fp fn tn =>
      1 - (tp * tn - fp * fn) / sqrt ((tp + fp) * (tp + fn) * (tn + fp) * (tn + fn)))
    TP FP FN TN

/-! ## mcc_multiclass_loss (train/loss_functions.py lines 120-138)

`targets` are class indices of shape (batch,); `data_weights` and `mask`
are per-row and broadcast over the class axis (`unsqueeze(1)`); the result
is a single scalar for the whole batch. -/

/-- `mcc_multiclass_loss`. `bin_targets` is the one-hot matrix built on
lines 129-130; `c, s, pt, p2, t2` mirror lines 131-135. -/
def mcc_multiclass_loss (sqrt : ℚ → ℚ) (predictions : List (List ℚ))
    (targets : List Nat) (data_weights : List ℚ) (mask : List Bool) : ℚ :=
  let bin_targets := List.zipWith
    (fun (prow : List ℚ) (t : Nat) =>
      (List.range prow.length).map (fun j => if j = t then (1 : ℚ) else 0))
    predictions targets
  let wm := List.zipWith (fun w m => w * boolQ m) data_weights mask
  let pw := List.zipWith (fun (prow : List ℚ) w => prow.map (fun x => x * w)) predictions wm
  let bw := List.zipWith (fun (brow : List ℚ) w => brow.map (fun x => x * w)) bin_targets wm
  let c := (List.zipWith (fun (prow brow : List ℚ) =>
      (List.zipWith (· * ·) prow brow).sum) pw bin_targets).sum
  let s := (pw.map List.sum).sum
  let pt := (List.zipWith (· * ·) (colSum pw) (colSum bw)).sum
  let p2 := ((colSum pw).map (fun x => x ^ 2)).sum
  let t2 := ((colSum bw).map (fun x => x ^ 2)).sum
  1 - (c * s - pt) / sqrt ((s ^ 2 - p2) * (s ^ 2 - t2))

/-! ## sid_loss (both files; train/loss_functions.py lines 141-171) -/

/-- `sid_loss` on one row of the batch: threshold clamp, mask-zeroing,
row normalization, then the symmetric log-ratio divergence with masked
positions replaced by 1 on both sides. -/
def sidRow (log : ℚ → ℚ) (model_spectra target_spectra : List ℚ)
    (mask : List Bool) (threshold : Option ℚ) : List ℚ :=
  let model1 := clampRow threshold model_spectra
  let model2 := List.zipWith (fun c x => if c then x else 0) mask model1
  let s := model2.sum
  let model3 := model2.map (fun x => x / s)
  let target1 := List.zipWith (fun c x => if c then x else 1) mask target_spectra
  let model4 := List.zipWith (fun c x => if c then x else 1) mask model3
  List.zipWith (fun m t => log (m / t) * m + log (t / m) * t) model4 target1

/-- `sid_loss` on a (batch, spectrum_length) tensor: every step of the
source acts row-wise (the sum is `axis=1, keepdim=True`). -/
def sid_loss (log : ℚ → ℚ) (model_spectra target_spectra : List (List ℚ))
    (mask : List (List Bool)) (threshold : Option ℚ) : List (List ℚ) :=
  zipWith3 (fun m t k => sidRow log m t k threshold) model_spectra target_spectra mask

/-! ## wasserstein_loss (both files; train/loss_functions.py lines 174-202) -/

/-- `wasserstein_loss` on one row: same normalization of the model row,
then `|cumsum(target) - cumsum(model)|`; note the target row is used raw
(no mask substitution). -/
def wassersteinRow (model_spectra target_spectra : List ℚ)
    (mask : List Bool) (threshold : Option ℚ) : List ℚ :=
  let model1 := clampRow threshold model_spectra
  let model2 := List.zipWith (fun c x => if c then x else 0) mask model1
  let s := model2.sum
  let model3 := model2.map (fun x => x / s)
  let target_cum := cumsum target_spectra
  let model_cum := cumsum model3
  List.zipWith (fun t m => |t - m|) target_cum model_cum

/-- `wasserstein_loss` on a (batch, spectrum_length) tensor. -/
def wasserstein_loss (model_spectra target_spectra : List (List ℚ))
    (mask : List (List Bool)) (threshold : Option ℚ) : List (List ℚ) :=
  zipWith3 (fun m t k => wassersteinRow m t k threshold) model_spectra target_spectra mask

/-! ## The two get_loss_func selector variants -/

/-- Tags naming the callables stored in the two registries. -/
inductive LossTag : Type
  | mseLoss
  | bceWithLogitsLoss
  | crossEntropyLoss
  | boundedMse
  | mccClass
  | mccMulticlass
  | sid
  | wasserstein
deriving DecidableEq

/-- The three distinct `raise ValueError` shapes of the selectors, named
after the spec's error taxonomy (section 7). -/
inductive SelectorError : Type
  | unsupportedDatasetType (dataset_type : String)
  | unsupportedLossFunction (loss_function : Option String) (dataset_type : String)
  | noDefaultConfigured (dataset_type : String)
deriving DecidableEq

/-- The legacy registry of `chemprop/loss_functions.py` lines 18-36,
keyed with a default under `None`. -/
def legacySupported : List (String × List (Option String × LossTag)) :=
  [("regression", [(none, .mseLoss), (some "mse", .mseLoss)]),
   ("classification", [(none, .bceWithLogitsLoss), (some "cross_entropy", .bceWithLogitsLoss)]),
   ("multiclass", [(none, .crossEntropyLoss), (some "cross_entropy", .crossEntropyLoss)]),
   ("spectra", [(none, .sid), (some "spectra", .sid), (some "wasserstein", .wasserstein)])]

/-- The current registry of `chemprop/train/loss_functions.py` lines
19-38: explicit names only, no `None` default key. -/
def trainSupported : List (String × List (Option String × LossTag)) :=
  [("regression", [(some "mse", .mseLoss), (some "bounded_mse", .boundedMse)]),
   ("classification", [(some "binary_cross_entropy", .bceWithLogitsLoss), (some "mcc", .mccClass)]),
   ("multiclass", [(some "cross_entropy", .crossEntropyLoss), (some "mcc", .mccMulticlass)]),
   ("spectra", [(some "sid", .sid), (some "wasserstein", .wasserstein)])]

/-- Multiply row `i` of a (batch, n) tensor by the scalar `c`, leaving the
other rows alone (the "scale one raw model_spectra row" operation that the
spec's scale-invariance property applies before a call). -/
def scaleRow (c : ℚ) : Nat → List (List ℚ) → List (List ℚ)
  | _, [] => []
  | 0, r :: rs => r.map (fun x => c * x) :: rs
  | n + 1, r :: rs => r :: scaleRow c n rs

/-- `get_loss_func` of `chemprop/loss_functions.py` (lines 9-52): dataset
type membership check, then a two-level lookup; a missing name raises the
not-supported error when a name was given (line 49) and the
no-default-configured error when it was `None` (line 52). -/
def legacy_get_loss_func (dataset_type : String) (loss_function : Option String) :
    Except SelectorError LossTag :=
  match legacySupported.lookup dataset_type with
  | none => .error (.unsupportedDatasetType dataset_type)
  | some table =>
    match table.lookup loss_function with
    | some f => .ok f
    | none =>
      match loss_function with
      | some name => .error (.unsupportedLossFunction (some name) dataset_type)
      | none => .error (.noDefaultConfigured dataset_type)

/-- `get_loss_func` of `chemprop/train/loss_functions.py` (lines 9-51):
dataset type membership check, then a two-level lookup; any missing name
(including an omitted one, i.e. `None`) raises the single not-supported
error of line 51. -/
def train_get_loss_func (dataset_type : String) (loss_function : Option String) :
    Except SelectorError LossTag :=
  match trainSupported.lookup dataset_type with
  | none => .error (.unsupportedDatasetType dataset_type)
  | some table =>
    match table.lookup loss_function with
    | some f => .ok f
    | none => .error (.unsupportedLossFunction loss_function dataset_type)

/-! ## Float-faithful refinement of the sid pipeline

`FQ` is a rational extended with plus/minus infinity and NaN, and
`fadd/fmul/fdiv/flog` follow the IEEE rules torch floats obey (0/0 and
inf - inf and inf * 0 are NaN; x/0 is a signed infinity for x nonzero;
log 0 is -inf, log of a negative or of NaN is NaN; every arithmetic
operation propagates NaN).  The logarithm of a positive finite value is
the parameterized finite `log`, as in the ℚ model.  `sidRowF` and
`sid_lossF` re-embed the very same source lines of sid_loss over these
scalars; they witness the NaN paths that total rational division hides. -/

/-- A float-like scalar: finite rational, plus or minus infinity, or NaN
(rounding is idealized away, value structure is kept). -/
inductive FQ : Type
  | fin (q : ℚ)
  | pinf
  | ninf
  | nan
deriving DecidableEq

/-- IEEE-style addition on `FQ`: infinities of opposite sign give NaN,
NaN propagates. -/
def fadd : FQ → FQ → FQ
  | .fin a, .fin b => .fin (a + b)
  | .fin _, .pinf => .pinf
  | .fin _, .ninf => .ninf
  | .pinf, .fin _ => .pinf
  | .ninf, .fin _ => .ninf
  | .pinf, .pinf => .pinf
  | .ninf, .ninf => .ninf
  | .pinf, .ninf => .nan
  | .ninf, .pinf => .nan
  | _, _ => .nan

/-- IEEE-style multiplication on `FQ`: zero times an infinity gives NaN,
NaN propagates, signs of infinities multiply. -/
def fmul : FQ → FQ → FQ
  | .fin a, .fin b => .fin (a * b)
  | .fin a, .pinf => if a = 0 then .nan else if 0 < a then .pinf else .ninf
  | .fin a, .ninf => if a = 0 then .nan else if 0 < a then .ninf else .pinf
  | .pinf, .fin b => if b = 0 then .nan else if 0 < b then .pinf else .ninf
  | .ninf, .fin b => if b = 0 then .nan else if 0 < b then .ninf else .pinf
  | .pinf, .pinf => .pinf
  | .ninf, .ninf => .pinf
  | .pinf, .ninf => .ninf
  | .ninf, .pinf => .ninf
  | _, _ => .nan

/-- IEEE-style division on `FQ`: 0/0 and inf/inf give NaN, x/0 is a
signed infinity for x nonzero, finite/inf is 0, NaN propagates. -/
def fdiv : FQ → FQ → FQ
  | .fin a, .fin b =>
    if b = 0 then (if a = 0 then .nan else if 0 < a then .pinf else .ninf)
    else .fin (a / b)
  | .fin _, .pinf => .fin 0
  | .fin _, .ninf => .fin 0
  | .pinf, .fin b => if 0 ≤ b then .pinf else .ninf
  | .ninf, .fin b => if 0 ≤ b then .ninf else .pinf
  | _, _ => .nan

/-- torch.log on `FQ`: -inf at 0, NaN on negatives and NaN, +inf at
+inf, and the parameterized finite log on positive finite values. -/
def flog (log : ℚ → ℚ) : FQ → FQ
  | .fin a => if a = 0 then .ninf else if a < 0 then .nan else .fin (log a)
  | .pinf => .pinf
  | .ninf => .nan
  | .nan => .nan

/-- torch.sum of a row of `FQ` scalars. -/
def fsum (l : List FQ) : FQ := l.foldr fadd (.fin 0)

/-- `sid_loss` on one row over the float-faithful scalars: the same
pipeline as `sidRow` (threshold clamp omitted here only when
`threshold is None`, mask-zeroing, row normalization, masked
substitution by 1, symmetric log-ratio), with IEEE-style operations. -/
def sidRowF (log : ℚ → ℚ) (model_spectra target_spectra : List FQ)
    (mask : List Bool) (threshold : Option ℚ) : List FQ :=
  let model1 := match threshold with
    | none => model_spectra
    | some th => model_spectra.map (fun x =>
        match x with
        | .fin a => if a < th then .fin th else x
        | .ninf => .fin th
        | _ => x)
  let model2 := List.zipWith (fun c x => if c then x else .fin 0) mask model1
  let s := fsum model2
  let model3 := model2.map (fun x => fdiv x s)
  let target1 := List.zipWith (fun c x => if c then x else .fin 1) mask target_spectra
  let model4 := List.zipWith (fun c x => if c then x else .fin 1) mask model3
  List.zipWith
    (fun m t => fadd (fmul (flog log (fdiv m t)) m) (fmul (flog log (fdiv t m)) t))
    model4 target1

/-- `sid_loss` over the float-faithful scalars. -/
def sid_lossF (log : ℚ → ℚ) (model_spectra target_spectra : List (List FQ))
    (mask : List (List Bool)) (threshold : Option ℚ) : List (List FQ) :=
  zipWith3 (fun m t k => sidRowF log m t k threshold) model_spectra target_spectra mask

/-! ## Helper lemmas about the list primitives -/

@[simp]
theorem zipWith3_nil {α β γ δ : Type} (f : α → β → γ → δ) (bs : List β) (cs : List γ) :
    zipWith3 f [] bs cs = [] := rfl

@[simp]
theorem zipWith3_nil₂ {α β γ δ : Type} (f : α → β → γ → δ) (as : List α) (cs : List γ) :
    zipWith3 f as [] cs = [] := by cases as <;> rfl

@[simp]
theorem zipWith3_nil₃ {α β γ δ : Type} (f : α → β → γ → δ) (as : List α) (bs : List β) :
    zipWith3 f as bs [] = [] := by cases as <;> cases bs <;> rfl

@[simp]
theorem zipWith3_cons {α β γ δ : Type} (f : α → β → γ → δ) (a : α) (as : List α)
    (b : β) (bs : List β) (c : γ) (cs : List γ) :
    zipWith3 f (a :: as) (b :: bs) (c :: cs) = f a b c :: zipWith3 f as bs cs := rfl

@[simp]
theorem zipWith4_nil {α β γ δ ε : Type} (f : α → β → γ → δ → ε)
    (bs : List β) (cs : List γ) (ds : List δ) : zipWith4 f [] bs cs ds = [] := rfl

@[simp]
theorem zipWith4_cons {α β γ δ ε : Type} (f : α → β → γ → δ → ε) (a : α) (as : List α)
    (b : β) (bs : List β) (c : γ) (cs : List γ) (d : δ) (ds : List δ) :
    zipWith4 f (a :: as) (b :: bs) (c :: cs) (d :: ds)
      = f a b c d :: zipWith4 f as bs cs ds := rfl

@[simp]
theorem zipWith4_nil₂ {α β γ δ ε : Type} (f : α → β → γ → δ → ε) (as : List α)
    (cs : List γ) (ds : List δ) : zipWith4 f as [] cs ds = [] := by cases as <;> rfl

@[simp]
theorem zipWith4_nil₃ {α β γ δ ε : Type} (f : α → β → γ → δ → ε) (as : List α)
    (bs : List β) (ds : List δ) : zipWith4 f as bs [] ds = [] := by
  cases as <;> cases bs <;> rfl

@[simp]
theorem zipWith4_nil₄ {α β γ δ ε : Type} (f : α → β → γ → δ → ε) (as : List α)
    (bs : List β) (cs : List γ) : zipWith4 f as bs cs [] = [] := by
  cases as <;> cases bs <;> cases cs <;> rfl

theorem length_zipWith3 {α β γ δ : Type} (f : α → β → γ → δ) (as : List α)
    (bs : List β) (cs : List γ) :
    (zipWith3 f as bs cs).length = min as.length (min bs.length cs.length) := by
  induction as generalizing bs cs with
  | nil => simp
  | cons a as ih =>
    cases bs with
    | nil => simp
    | cons b bs =>
      cases cs with
      | nil => simp
      | cons c cs => simp only [zipWith3_cons, List.length_cons, ih]; omega

theorem length_zipWith4 {α β γ δ ε : Type} (f : α → β → γ → δ → ε) (as : List α)
    (bs : List β) (cs : List γ) (ds : List δ) :
    (zipWith4 f as bs cs ds).length
      = min as.length (min bs.length (min cs.length ds.length)) := by
  induction as generalizing bs cs ds with
  | nil => simp
  | cons a as ih =>
    cases bs with
    | nil => cases cs <;> cases ds <;> simp [zipWith4]
    | cons b bs =>
      cases cs with
      | nil => cases ds <;> simp [zipWith4]
      | cons c cs =>
        cases ds with
        | nil => simp [zipWith4]
        | cons d ds => simp only [zipWith4_cons, List.length_cons, ih]; omega

theorem zipWith_self {α β : Type} (f : α → α → β) (l : List α) :
    List.zipWith f l l = l.map (fun x => f x x) := by
  induction l with
  | nil => rfl
  | cons x xs ih => simp [ih]

theorem zipWith3_self_map {α γ δ : Type} (f : α → α → γ → δ) (g : α → γ) (l : List α) :
    zipWith3 f l l (l.map g) = l.map (fun x => f x x (g x)) := by
  induction l with
  | nil => rfl
  | cons x xs ih => simp [ih]

theorem zipWith3_map_left {α γ δ : Type} (f : α → α → γ → δ) (g : α → α) (g2 : α → γ)
    (l : List α) :
    zipWith3 f (l.map g) l (l.map g2) = l.map (fun x => f (g x) x (g2 x)) := by
  induction l with
  | nil => rfl
  | cons x xs ih => simp [ih]

theorem zipWith_mask_true {α : Type} (z : α) (k : List Bool) (l : List α)
    (hk : ∀ b ∈ k, b = true) (hl : l.length = k.length) :
    List.zipWith (fun c x => if c then x else z) k l = l := by
  induction k generalizing l with
  | nil =>
    rw [List.length_eq_zero.mp hl]
    rfl
  | cons b k ih =>
    cases l with
    | nil => simp at hl
    | cons x xs =>
      have hb : b = true := hk b (List.mem_cons_self b k)
      subst hb
      simp only [List.zipWith_cons_cons, if_true]
      rw [ih xs (fun b hb => hk b (List.mem_cons_of_mem _ hb)) (by simpa using hl)]

theorem zipWith_mask_false {α : Type} (z : α) (k : List Bool) (l : List α)
    (hk : ∀ b ∈ k, b = false) :
    List.zipWith (fun c x => if c then x else z) k l
      = List.replicate (min k.length l.length) z := by
  induction k generalizing l with
  | nil => simp
  | cons b k ih =>
    cases l with
    | nil => simp
    | cons x xs =>
      have hb : b = false := hk b (List.mem_cons_self b k)
      subst hb
      simp only [List.zipWith_cons_cons, if_false, Bool.false_eq_true, List.length_cons]
      rw [ih xs (fun b hb => hk b (List.mem_cons_of_mem _ hb))]
      rw [Nat.succ_min_succ, List.replicate_succ]

theorem zipWith_mask_map_self {α : Type} (z : α) (l : List α) :
    List.zipWith (fun c x => if c then x else z) (l.map fun _ => true) l = l := by
  induction l with
  | nil => rfl
  | cons x xs ih =>
    simp only [List.map_cons, List.zipWith_cons_cons, if_true]
    rw [ih]

theorem zipWith_mask_map_map {α β : Type} (z : β) (g : α → β) (l : List α) :
    List.zipWith (fun c x => if c then x else z) (l.map fun _ => true) (l.map g)
      = l.map g := by
  induction l with
  | nil => rfl
  | cons x xs ih =>
    simp only [List.map_cons, List.zipWith_cons_cons, if_true]
    rw [ih]

theorem fsum_map_fin (r : List ℚ) : fsum (r.map FQ.fin) = FQ.fin r.sum := by
  induction r with
  | nil => rfl
  | cons x xs ih =>
    simp [fsum, fadd, List.foldr] at ih ⊢
    rw [ih]

theorem cumsumFrom_length (acc : ℚ) (l : List ℚ) : (cumsumFrom acc l).length = l.length := by
  induction l generalizing acc with
  | nil => rfl
  | cons x xs ih => simp [cumsumFrom, ih]

theorem cumsum_length (l : List ℚ) : (cumsum l).length = l.length :=
  cumsumFrom_length 0 l

theorem clampRow_length (th : Option ℚ) (l : List ℚ) : (clampRow th l).length = l.length := by
  cases th <;> simp [clampRow]

theorem colSum_length (k : Nat) :
    ∀ m : List (List ℚ), m ≠ [] → (∀ r ∈ m, r.length = k) → (colSum m).length = k
  | [], h, _ => absurd rfl h
  | [r], _, hr => by simp [colSum, hr r (List.mem_singleton_self r)]
  | r :: r2 :: rs, _, hr => by
    have ih := colSum_length k (r2 :: rs) (by simp)
      (fun x hx => hr x (List.mem_cons_of_mem r hx))
    simp [colSum, List.length_zipWith, ih, hr r (List.mem_cons_self r _)]

theorem colSum_map_zero (k : Nat) :
    ∀ m : List (List ℚ), m ≠ [] → (∀ r ∈ m, r.length = k) →
      colSum (m.map (fun r => r.map (fun _ => (0 : ℚ)))) = List.replicate k 0
  | [], h, _ => absurd rfl h
  | [r], _, hr => by
    simp only [List.map_cons, List.map_nil, colSum]
    rw [List.map_const', hr r (List.mem_singleton_self r)]
  | r :: r2 :: rs, _, hr => by
    have ih := colSum_map_zero k (r2 :: rs) (by simp)
      (fun x hx => hr x (List.mem_cons_of_mem r hx))
    simp only [List.map_cons, colSum] at ih ⊢
    rw [List.map_const', hr r (List.mem_cons_self r _), ih, List.zipWith_replicate,
      min_self, add_zero]

theorem sum_map_mul (c : ℚ) (l : List ℚ) : (l.map (fun x => c * x)).sum = c * l.sum := by
  induction l with
  | nil => simp
  | cons x xs ih => simp [ih, mul_add]

/-- On a row identical to its target, fully masked in, strictly positive
and already summing to 1, sidRow is pointwise zero. -/
theorem sidRow_self (log : ℚ → ℚ) (hlog : log 1 = 0) (r : List ℚ) (hs : r.sum = 1)
    (hpos : ∀ x ∈ r, 0 < x) :
    sidRow log r r (r.map fun _ => true) none = r.map fun _ => 0 := by
  have h0 : List.zipWith (fun c x => if c then x else (0 : ℚ)) (r.map fun _ => true) r = r :=
    zipWith_mask_map_self 0 r
  have h1 : List.zipWith (fun c x => if c then x else (1 : ℚ)) (r.map fun _ => true) r = r :=
    zipWith_mask_map_self 1 r
  simp only [sidRow, clampRow, h0, hs, div_one, List.map_id', h1]
  rw [zipWith_self]
  refine List.map_congr_left (fun x hx => ?_)
  rw [div_self (hpos x hx).ne', hlog]
  ring

/-- Float-faithful counterpart of sidRow_self: with strictly positive
entries no NaN path is reachable and the IEEE pipeline also returns
exactly zero. -/
theorem sidRowF_self (log : ℚ → ℚ) (hlog : log 1 = 0) (r : List ℚ) (hs : r.sum = 1)
    (hpos : ∀ x ∈ r, 0 < x) :
    sidRowF log (r.map FQ.fin) (r.map FQ.fin) (r.map fun _ => true) none
      = r.map fun _ => FQ.fin 0 := by
  have h0 : List.zipWith (fun c x => if c then x else FQ.fin 0) (r.map fun _ => true)
      (r.map FQ.fin) = r.map FQ.fin := zipWith_mask_map_map (FQ.fin 0) FQ.fin r
  have h1 : List.zipWith (fun c x => if c then x else FQ.fin 1) (r.map fun _ => true)
      (r.map FQ.fin) = r.map FQ.fin := zipWith_mask_map_map (FQ.fin 1) FQ.fin r
  have hsumf : fsum (r.map FQ.fin) = FQ.fin 1 := by rw [fsum_map_fin, hs]
  have hdiv1 : (r.map FQ.fin).map (fun x => fdiv x (FQ.fin 1)) = r.map FQ.fin := by
    rw [List.map_map]
    refine List.map_congr_left (fun x _ => ?_)
    simp [fdiv]
  simp only [sidRowF, h0, hsumf, hdiv1, h1]
  rw [zipWith_self, List.map_map]
  refine List.map_congr_left (fun x hx => ?_)
  have hx0 : x ≠ 0 := (hpos x hx).ne'
  simp only [Function.comp_apply, fdiv, if_neg hx0, div_self hx0, flog, fmul, fadd]
  norm_num [hlog]

/-- Same statement for wassersteinRow. -/
theorem wassersteinRow_self (r : List ℚ) (hs : r.sum = 1) :
    wassersteinRow r r (r.map fun _ => true) none = r.map fun _ => 0 := by
  have h0 : List.zipWith (fun c x => if c then x else (0 : ℚ)) (r.map fun _ => true) r = r :=
    zipWith_mask_map_self 0 r
  simp only [wassersteinRow, clampRow, h0, hs, div_one, List.map_id']
  rw [zipWith_self]
  have hz : ∀ t ∈ cumsum r, |t - t| = (0 : ℚ) := fun t _ => by simp
  rw [List.map_congr_left hz, List.map_const', List.map_const', cumsum_length]

theorem sid_self_aux (log : ℚ → ℚ) (hlog : log 1 = 0) :
    ∀ M : List (List ℚ), (∀ r ∈ M, r.sum = 1) → (∀ r ∈ M, ∀ x ∈ r, 0 < x) →
      sid_loss log M M (M.map (fun r => r.map fun _ => true)) none
        = M.map (fun r => r.map fun _ => 0)
  | [], _, _ => rfl
  | r :: M, h, hp => by
    have hd := sidRow_self log hlog r (h r (List.mem_cons_self r M))
      (hp r (List.mem_cons_self r M))
    have tl := sid_self_aux log hlog M (fun x hx => h x (List.mem_cons_of_mem r hx))
      (fun x hx => hp x (List.mem_cons_of_mem r hx))
    simp only [sid_loss, List.map_cons, zipWith3_cons] at tl ⊢
    rw [hd, tl]

theorem sidF_self_aux (log : ℚ → ℚ) (hlog : log 1 = 0) :
    ∀ M : List (List ℚ), (∀ r ∈ M, r.sum = 1) → (∀ r ∈ M, ∀ x ∈ r, 0 < x) →
      sid_lossF log (M.map (List.map FQ.fin)) (M.map (List.map FQ.fin))
        (M.map (fun r => r.map fun _ => true)) none
        = M.map (fun r => r.map fun _ => FQ.fin 0)
  | [], _, _ => rfl
  | r :: M, h, hp => by
    have hd := sidRowF_self log hlog r (h r (List.mem_cons_self r M))
      (hp r (List.mem_cons_self r M))
    have tl := sidF_self_aux log hlog M (fun x hx => h x (List.mem_cons_of_mem r hx))
      (fun x hx => hp x (List.mem_cons_of_mem r hx))
    simp only [sid_lossF, List.map_cons, zipWith3_cons] at tl ⊢
    rw [hd, tl]

theorem wasserstein_self_aux :
    ∀ M : List (List ℚ), (∀ r ∈ M, r.sum = 1) →
      wasserstein_loss M M (M.map (fun r => r.map fun _ => true)) none
        = M.map (fun r => r.map fun _ => 0)
  | [], _ => rfl
  | r :: M, h => by
    have hd := wassersteinRow_self r (h r (List.mem_cons_self r M))
    have tl := wasserstein_self_aux M (fun x hx => h x (List.mem_cons_of_mem r hx))
    simp only [wasserstein_loss, List.map_cons, zipWith3_cons] at tl ⊢
    rw [hd, tl]

/-- Indexing a row-wise zipWith3 at a valid row index gives the row
function applied to the rows. -/
theorem zipWith3_getD {α β γ δ : Type} (f : α → β → γ → δ) (da : α) (db : β) (dc : γ)
    (dd : δ) : ∀ (i : Nat) (as : List α) (bs : List β) (cs : List γ),
    i < as.length → bs.length = as.length → cs.length = as.length →
    (zipWith3 f as bs cs).getD i dd = f (as.getD i da) (bs.getD i db) (cs.getD i dc)
  | _, [], _, _, hi, _, _ => absurd hi (by simp)
  | i, a :: as, bs, cs, hi, hb, hc => by
    cases bs with
    | nil => simp at hb
    | cons b bs =>
      cases cs with
      | nil => simp at hc
      | cons c cs =>
        cases i with
        | zero => rfl
        | succ n =>
          simp only [zipWith3_cons, List.getD_cons_succ]
          exact zipWith3_getD f da db dc dd n as bs cs (by simpa using hi)
            (by simpa using hb) (by simpa using hc)

/-- A row whose mask is entirely false yields an all-zero sidRow: the
masked substitutions set both branches of the log-ratio to 1 before the
pointwise formula, regardless of the division by the zero row-sum. -/
theorem sidRow_masked (log : ℚ → ℚ) (hlog : log 1 = 0) (m t : List ℚ) (k : List Bool)
    (th : Option ℚ) (hk : ∀ b ∈ k, b = false) (hkm : k.length = m.length)
    (htm : t.length = m.length) :
    sidRow log m t k th = List.replicate m.length 0 := by
  have h0 : List.zipWith (fun c x => if c then x else (0 : ℚ)) k (clampRow th m)
      = List.replicate m.length 0 := by
    rw [zipWith_mask_false 0 k _ hk, clampRow_length, hkm, min_self]
  have h1 : List.zipWith (fun c x => if c then x else (1 : ℚ)) k t
      = List.replicate m.length 1 := by
    rw [zipWith_mask_false 1 k t hk, hkm, htm, min_self]
  have h2 : List.zipWith (fun c x => if c then x else (1 : ℚ)) k
      ((List.replicate m.length (0 : ℚ)).map
        (fun x => x / (List.replicate m.length (0 : ℚ)).sum))
      = List.replicate m.length 1 := by
    rw [zipWith_mask_false 1 k _ hk, List.length_map, List.length_replicate, hkm, min_self]
  simp only [sidRow, h0, h1, h2]
  rw [List.zipWith_replicate, min_self]
  rw [div_one, hlog]
  norm_num

/-- C6: for sid_loss, a row whose mask is entirely false produces a row
of finite zero loss values, despite the division by that row's zero sum
inside the normalization (total rational division stands in for the IEEE
NaN, and the masked where-substitution discards the affected values
either way). -/
theorem sid_loss_masked_row (log : ℚ → ℚ) (model target : List (List ℚ))
    (mask : List (List Bool)) (th : Option ℚ) (i : Nat)
    (hlog : log 1 = 0)
    (hlen_t : target.length = model.length) (hlen_k : mask.length = model.length)
    (hrow_t : (target.getD i []).length = (model.getD i []).length)
    (hrow_k : (mask.getD i []).length = (model.getD i []).length)
    (hi : i < model.length)
    (hmask : ∀ b ∈ mask.getD i [], b = false) :
    (sid_loss log model target mask th).getD i []
      = List.replicate (model.getD i []).length 0 := by
  rw [sid_loss, zipWith3_getD (fun m t k => sidRow log m t k th) [] [] [] []
    i model target mask hi hlen_t hlen_k]
  exact sidRow_masked log hlog _ _ _ th hmask hrow_k hrow_t

/-- Witness for C6: batch of one fully masked-out row, with a threshold
supplied. -/
theorem sid_loss_masked_row_witness :
    (sid_loss (fun _ => 0) [[1, 2]] [[3, 4]] [[false, false]] (some 5)).getD 0 []
      = List.replicate 2 0 :=
  sid_loss_masked_row (fun _ => 0) [[1, 2]] [[3, 4]] [[false, false]] (some 5) 0
    rfl rfl rfl rfl rfl (by norm_num) (by decide)

/-- With no threshold and a fully masked-in row, scaling the raw model
row by a nonzero constant leaves the normalized model row, and hence the
sidRow output, unchanged. -/
theorem sidRow_scale (log : ℚ → ℚ) (c : ℚ) (hc : c ≠ 0) (m t : List ℚ) (k : List Bool)
    (hk : ∀ b ∈ k, b = true) (hkm : m.length = k.length) :
    sidRow log (m.map fun x => c * x) t k none = sidRow log m t k none := by
  have h1 : List.zipWith (fun c' x => if c' then x else (0 : ℚ)) k m = m :=
    zipWith_mask_true 0 k m hk hkm
  have h2 : List.zipWith (fun c' x => if c' then x else (0 : ℚ)) k (m.map fun x => c * x)
      = m.map fun x => c * x :=
    zipWith_mask_true 0 k _ hk (by simpa using hkm)
  have key : (List.map (fun x => c * x) m).map (fun x => x / (c * m.sum))
      = m.map fun x => x / m.sum := by
    rw [List.map_map]
    exact List.map_congr_left (fun x _ => mul_div_mul_left x m.sum hc)
  simp only [sidRow, clampRow, h1, h2, sum_map_mul, key]

/-- Same statement for wassersteinRow. -/
theorem wassersteinRow_scale (c : ℚ) (hc : c ≠ 0) (m t : List ℚ) (k : List Bool)
    (hk : ∀ b ∈ k, b = true) (hkm : m.length = k.length) :
    wassersteinRow (m.map fun x => c * x) t k none = wassersteinRow m t k none := by
  have h1 : List.zipWith (fun c' x => if c' then x else (0 : ℚ)) k m = m :=
    zipWith_mask_true 0 k m hk hkm
  have h2 : List.zipWith (fun c' x => if c' then x else (0 : ℚ)) k (m.map fun x => c * x)
      = m.map fun x => c * x :=
    zipWith_mask_true 0 k _ hk (by simpa using hkm)
  have key : (List.map (fun x => c * x) m).map (fun x => x / (c * m.sum))
      = m.map fun x => x / m.sum := by
    rw [List.map_map]
    exact List.map_congr_left (fun x _ => mul_div_mul_left x m.sum hc)
  simp only [wassersteinRow, clampRow, h1, h2, sum_map_mul, key]

theorem sid_scale_aux (log : ℚ → ℚ) (c : ℚ) (hc : c ≠ 0) :
    ∀ (i : Nat) (model target : List (List ℚ)) (mask : List (List Bool)),
    (∀ b ∈ mask.getD i [], b = true) →
    (model.getD i []).length = (mask.getD i []).length →
    sid_loss log (scaleRow c i model) target mask none = sid_loss log model target mask none
  | i, [], _, _, _, _ => by cases i <;> rfl
  | 0, r :: M, target, mask, hk, hlen => by
    cases target with
    | nil => simp [sid_loss, scaleRow]
    | cons t T =>
      cases mask with
      | nil => simp [sid_loss, scaleRow]
      | cons k K =>
        simp only [List.getD_cons_zero] at hk hlen
        simp only [sid_loss, scaleRow, zipWith3_cons]
        rw [sidRow_scale log c hc r t k hk hlen]
  | n + 1, r :: M, target, mask, hk, hlen => by
    cases target with
    | nil => simp [sid_loss, scaleRow]
    | cons t T =>
      cases mask with
      | nil => simp [sid_loss, scaleRow]
      | cons k K =>
        simp only [List.getD_cons_succ] at hk hlen
        simp only [sid_loss, scaleRow, zipWith3_cons]
        have ih := sid_scale_aux log c hc n M T K hk hlen
        simp only [sid_loss] at ih
        rw [ih]

theorem wasserstein_scale_aux (c : ℚ) (hc : c ≠ 0) :
    ∀ (i : Nat) (model target : List (List ℚ)) (mask : List (List Bool)),
    (∀ b ∈ mask.getD i [], b = true) →
    (model.getD i []).length = (mask.getD i []).length →
    wasserstein_loss (scaleRow c i model) target mask none
      = wasserstein_loss model target mask none
  | i, [], _, _, _, _ => by cases i <;> rfl
  | 0, r :: M, target, mask, hk, hlen => by
    cases target with
    | nil => simp [wasserstein_loss, scaleRow]
    | cons t T =>
      cases mask with
      | nil => simp [wasserstein_loss, scaleRow]
      | cons k K =>
        simp only [List.getD_cons_zero] at hk hlen
        simp only [wasserstein_loss, scaleRow, zipWith3_cons]
        rw [wassersteinRow_scale c hc r t k hk hlen]
  | n + 1, r :: M, target, mask, hk, hlen => by
    cases target with
    | nil => simp [wasserstein_loss, scaleRow]
    | cons t T =>
      cases mask with
      | nil => simp [wasserstein_loss, scaleRow]
      | cons k K =>
        simp only [List.getD_cons_succ] at hk hlen
        simp only [wasserstein_loss, scaleRow, zipWith3_cons]
        have ih := wasserstein_scale_aux c hc n M T K hk hlen
        simp only [wasserstein_loss] at ih
        rw [ih]

/-- Each element of a bounded_mse row is at most the corresponding plain
squared error: the two clamps either leave the prediction alone or move
it exactly onto the target. -/
theorem bounded_mse_row_le :
    ∀ (pr tr : List ℚ) (lr gr : List Bool), tr.length = pr.length →
      lr.length = pr.length → gr.length = pr.length →
      List.Forall₂ (· ≤ ·) (bounded_mse_row pr tr lr gr)
        (List.zipWith (fun p t => (p - t) ^ 2) pr tr)
  | [], tr, lr, gr, ht, _, _ => by
    rw [List.length_eq_zero.mp ht]
    exact List.Forall₂.nil
  | p :: pr, tr, lr, gr, ht, hl, hg => by
    cases tr with
    | nil => simp at ht
    | cons t tr =>
      cases lr with
      | nil => simp at hl
      | cons l lr =>
        cases gr with
        | nil => simp at hg
        | cons g gr =>
          simp only [bounded_mse_row, zipWith3_cons, List.zipWith_cons_cons]
          refine List.Forall₂.cons ?_ (bounded_mse_row_le pr tr lr gr
            (by simpa using ht) (by simpa using hl) (by simpa using hg))
          by_cases h1 : p < t ∧ l = true
          · rw [if_pos h1, if_neg (by simp [lt_irrefl])]
            simpa using sq_nonneg (p - t)
          · rw [if_neg h1]
            by_cases h2 : p > t ∧ g = true
            · rw [if_pos h2]
              simpa using sq_nonneg (p - t)
            · rw [if_neg h2]

theorem bounded_mse_row_length (pr tr : List ℚ) (lr gr : List Bool)
    (h1 : tr.length = pr.length) (h2 : lr.length = pr.length)
    (h3 : gr.length = pr.length) : (bounded_mse_row pr tr lr gr).length = pr.length := by
  simp only [bounded_mse_row, List.length_zipWith, length_zipWith3, h1, h2, h3]
  omega

theorem sidRow_length (log : ℚ → ℚ) (m t : List ℚ) (k : List Bool) (th : Option ℚ)
    (ht : t.length = m.length) (hk : k.length = m.length) :
    (sidRow log m t k th).length = m.length := by
  simp only [sidRow, List.length_zipWith, List.length_map, clampRow_length, ht, hk]
  omega

theorem wassersteinRow_length (m t : List ℚ) (k : List Bool) (th : Option ℚ)
    (ht : t.length = m.length) (hk : k.length = m.length) :
    (wassersteinRow m t k th).length = m.length := by
  simp only [wassersteinRow, List.length_zipWith, List.length_map, clampRow_length,
    cumsum_length, ht, hk]
  omega

theorem shape2_bounded_mse :
    ∀ (P T : List (List ℚ)) (L G : List (List Bool)), shape2 T = shape2 P →
      shape2 L = shape2 P → shape2 G = shape2 P →
      shape2 (bounded_mse_loss P T L G) = shape2 P
  | [], T, L, G, hT, _, _ => by rw [List.map_eq_nil_iff.mp hT]; rfl
  | pr :: P, T, L, G, hT, hL, hG => by
    cases T with
    | nil => simp [shape2] at hT
    | cons tr T =>
      cases L with
      | nil => simp [shape2] at hL
      | cons lr L =>
        cases G with
        | nil => simp [shape2] at hG
        | cons gr G =>
          simp only [shape2, List.map_cons, List.cons.injEq] at hT hL hG
          simp only [bounded_mse_loss, zipWith4_cons, shape2, List.map_cons]
          refine List.cons_eq_cons.mpr ⟨bounded_mse_row_length pr tr lr gr hT.1 hL.1 hG.1, ?_⟩
          have := shape2_bounded_mse P T L G hT.2 hL.2 hG.2
          simpa [bounded_mse_loss, shape2] using this

theorem shape2_sid (log : ℚ → ℚ) (th : Option ℚ) :
    ∀ (M S : List (List ℚ)) (K : List (List Bool)), shape2 S = shape2 M →
      shape2 K = shape2 M → shape2 (sid_loss log M S K th) = shape2 M
  | [], S, K, hS, _ => by rw [List.map_eq_nil_iff.mp hS]; rfl
  | m :: M, S, K, hS, hK => by
    cases S with
    | nil => simp [shape2] at hS
    | cons s S =>
      cases K with
      | nil => simp [shape2] at hK
      | cons k K =>
        simp only [shape2, List.map_cons, List.cons.injEq] at hS hK
        simp only [sid_loss, zipWith3_cons, shape2, List.map_cons]
        refine List.cons_eq_cons.mpr ⟨sidRow_length log m s k th hS.1 hK.1, ?_⟩
        have := shape2_sid log th M S K hS.2 hK.2
        simpa [sid_loss, shape2] using this

theorem shape2_wasserstein (th : Option ℚ) :
    ∀ (M S : List (List ℚ)) (K : List (List Bool)), shape2 S = shape2 M →
      shape2 K = shape2 M → shape2 (wasserstein_loss M S K th) = shape2 M
  | [], S, K, hS, _ => by rw [List.map_eq_nil_iff.mp hS]; rfl
  | m :: M, S, K, hS, hK => by
    cases S with
    | nil => simp [shape2] at hS
    | cons s S =>
      cases K with
      | nil => simp [shape2] at hK
      | cons k K =>
        simp only [shape2, List.map_cons, List.cons.injEq] at hS hK
        simp only [wasserstein_loss, zipWith3_cons, shape2, List.map_cons]
        refine List.cons_eq_cons.mpr ⟨wassersteinRow_length m s k th hS.1 hK.1, ?_⟩
        have := shape2_wasserstein th M S K hS.2 hK.2
        simpa [wasserstein_loss, shape2] using this

theorem mccCells_length (f : ℚ → ℚ → ℚ) (P T : List (List ℚ)) (w : List ℚ)
    (K : List (List Bool)) (hT : T.length = P.length) (hw : w.length = P.length)
    (hK : K.length = P.length) : (mccCells f P T w K).length = P.length := by
  simp only [mccCells, length_zipWith4, hT, hw, hK]
  omega

theorem mccCells_rows (f : ℚ → ℚ → ℚ) (k : Nat) :
    ∀ (P T : List (List ℚ)) (w : List ℚ) (K : List (List Bool)),
      (∀ r ∈ P, r.length = k) → (∀ r ∈ T, r.length = k) → (∀ r ∈ K, r.length = k) →
      ∀ r ∈ mccCells f P T w K, r.length = k
  | [], _, _, _, _, _, _, r, hr => by simp [mccCells] at hr
  | _ :: _, [], _, _, _, _, _, r, hr => by simp [mccCells] at hr
  | _ :: _, _ :: _, [], _, _, _, _, r, hr => by simp [mccCells] at hr
  | _ :: _, _ :: _, _ :: _, [], _, _, _, r, hr => by simp [mccCells] at hr
  | pr :: P, tr :: T, w0 :: w, kr :: K, hP, hT, hK, r, hr => by
    simp only [mccCells, zipWith4_cons, List.mem_cons] at hr
    rcases hr with hr | hr
    · subst hr
      rw [length_zipWith3, hP pr (List.mem_cons_self pr P), hT tr (List.mem_cons_self tr T),
        hK kr (List.mem_cons_self kr K)]
      omega
    · exact mccCells_rows f k P T w K
        (fun x hx => hP x (List.mem_cons_of_mem _ hx))
        (fun x hx => hT x (List.mem_cons_of_mem _ hx))
        (fun x hx => hK x (List.mem_cons_of_mem _ hx)) r hr

theorem mcc_class_loss_length (sqrt : ℚ → ℚ) (P T : List (List ℚ)) (w : List ℚ)
    (K : List (List Bool)) (k : Nat) (hP : P ≠ [])
    (hPr : ∀ r ∈ P, r.length = k) (hTr : ∀ r ∈ T, r.length = k)
    (hKr : ∀ r ∈ K, r.length = k) (hT : T.length = P.length)
    (hw : w.length = P.length) (hK : K.length = P.length) :
    (mcc_class_loss sqrt P T w K).length = k := by
  have hne : ∀ f : ℚ → ℚ → ℚ, mccCells f P T w K ≠ [] := by
    intro f h
    have hl := mccCells_length f P T w K hT hw hK
    rw [h] at hl
    exact hP (List.length_eq_zero.mp hl.symm)
  have h1 := colSum_length k _ (hne (fun t p => t * p))
    (mccCells_rows _ k P T w K hPr hTr hKr)
  have h2 := colSum_length k _ (hne (fun t p => (1 - t) * p))
    (mccCells_rows _ k P T w K hPr hTr hKr)
  have h3 := colSum_length k _ (hne (fun t p => t * (1 - p)))
    (mccCells_rows _ k P T w K hPr hTr hKr)
  have h4 := colSum_length k _ (hne (fun t p => (1 - t) * (1 - p)))
    (mccCells_rows _ k P T w K hPr hTr hKr)
  simp only [mcc_class_loss, length_zipWith4, h1, h2, h3, h4]
  omega

/-- With weights all 1 and a full mask, each of the four mcc cell tensors
on a perfect-prediction batch (predictions = targets = T) is the
elementwise image of T under the corresponding confusion product. -/
theorem mccCells_self_true (f : ℚ → ℚ → ℚ) :
    ∀ T : List (List ℚ), mccCells f T T (List.replicate T.length 1)
        (T.map (fun r => r.map fun _ => true))
      = T.map (fun r => r.map (fun t => f t t))
  | [] => rfl
  | r :: M => by
    simp only [List.length_cons, List.replicate_succ, List.map_cons, mccCells, zipWith4_cons]
    refine List.cons_eq_cons.mpr ⟨?_, ?_⟩
    · rw [zipWith3_self_map]
      exact List.map_congr_left (fun x _ => by simp [boolQ])
    · have ih := mccCells_self_true f M
      simpa [mccCells] using ih

/-- Same, for predictions obtained by mapping g over the targets. -/
theorem mccCells_map_left (f : ℚ → ℚ → ℚ) (g : ℚ → ℚ) :
    ∀ T : List (List ℚ), mccCells f (T.map (List.map g)) T (List.replicate T.length 1)
        (T.map (fun r => r.map fun _ => true))
      = T.map (fun r => r.map (fun t => f t (g t)))
  | [] => rfl
  | r :: M => by
    simp only [List.length_cons, List.replicate_succ, List.map_cons, mccCells, zipWith4_cons]
    refine List.cons_eq_cons.mpr ⟨?_, ?_⟩
    · rw [zipWith3_map_left]
      exact List.map_congr_left (fun x _ => by simp [boolQ])
    · have ih := mccCells_map_left f g M
      simpa [mccCells] using ih

/-- Two elementwise maps agree on a matrix with entries in {0, 1} as soon
as they agree on 0 and on 1. -/
theorem matrix_map_congr (φ ψ : ℚ → ℚ) :
    ∀ T : List (List ℚ), (∀ r ∈ T, ∀ x ∈ r, x = 0 ∨ x = 1) →
      φ 0 = ψ 0 → φ 1 = ψ 1 → T.map (List.map φ) = T.map (List.map ψ)
  | [], _, _, _ => rfl
  | r :: M, hval, h0, h1 => by
    simp only [List.map_cons]
    refine List.cons_eq_cons.mpr ⟨?_,
      matrix_map_congr φ ψ M (fun x hx => hval x (List.mem_cons_of_mem _ hx)) h0 h1⟩
    refine List.map_congr_left (fun x hx => ?_)
    rcases hval r (List.mem_cons_self r M) x hx with h | h
    · rw [h, h0]
    · rw [h, h1]

/-- The final mcc combination on column sums TP = A, FP = FN = 0, TN = B
with positive A and B entries is identically zero. -/
theorem mcc_final_perfect (sqrt : ℚ → ℚ) (hsqrt : ∀ x : ℚ, 0 ≤ x → sqrt (x * x) = x) :
    ∀ A B : List ℚ, B.length = A.length → (∀ a ∈ A, 0 < a) → (∀ b ∈ B, 0 < b) →
      zipWith4 (fun tp fp fn tn =>
          1 - (tp * tn - fp * fn) / sqrt ((tp + fp) * (tp + fn) * (tn + fp) * (tn + fn)))
        A (List.replicate A.length 0) (List.replicate A.length 0) B
        = List.replicate A.length 0
  | [], _, _, _, _ => rfl
  | a :: A, B, hB, hA0, hB0 => by
    cases B with
    | nil => simp at hB
    | cons b B =>
      have ha := hA0 a (List.mem_cons_self a A)
      have hb := hB0 b (List.mem_cons_self b B)
      simp only [List.length_cons, List.replicate_succ, zipWith4_cons]
      refine List.cons_eq_cons.mpr ⟨?_, mcc_final_perfect sqrt hsqrt A B (by simpa using hB)
        (fun x hx => hA0 x (List.mem_cons_of_mem _ hx))
        (fun x hx => hB0 x (List.mem_cons_of_mem _ hx))⟩
      have harg : (a + 0) * (a + 0) * (b + 0) * (b + 0) = (a * b) * (a * b) := by ring
      have hnum : a * b - 0 * 0 = a * b := by ring
      rw [harg, hnum, hsqrt (a * b) (le_of_lt (mul_pos ha hb)),
        div_self (ne_of_gt (mul_pos ha hb))]
      ring

/-- The final mcc combination on column sums TP = TN = 0, FP = B, FN = A
with positive A and B entries is identically two. -/
theorem mcc_final_anti (sqrt : ℚ → ℚ) (hsqrt : ∀ x : ℚ, 0 ≤ x → sqrt (x * x) = x) :
    ∀ B A : List ℚ, A.length = B.length → (∀ b ∈ B, 0 < b) → (∀ a ∈ A, 0 < a) →
      zipWith4 (fun tp fp fn tn =>
          1 - (tp * tn - fp * fn) / sqrt ((tp + fp) * (tp + fn) * (tn + fp) * (tn + fn)))
        (List.replicate B.length 0) B A (List.replicate B.length 0)
        = List.replicate B.length 2
  | [], _, _, _, _ => rfl
  | b :: B, A, hA, hB0, hA0 => by
    cases A with
    | nil => simp at hA
    | cons a A =>
      have ha := hA0 a (List.mem_cons_self a A)
      have hb := hB0 b (List.mem_cons_self b B)
      simp only [List.length_cons, List.replicate_succ, zipWith4_cons]
      refine List.cons_eq_cons.mpr ⟨?_, mcc_final_anti sqrt hsqrt B A (by simpa using hA)
        (fun x hx => hB0 x (List.mem_cons_of_mem _ hx))
        (fun x hx => hA0 x (List.mem_cons_of_mem _ hx))⟩
      have harg : (0 + b) * (0 + a) * (0 + b) * (0 + a) = (a * b) * (a * b) := by ring
      have hnum : 0 * 0 - b * a = -(a * b) := by ring
      rw [harg, hnum, hsqrt (a * b) (le_of_lt (mul_pos ha hb)), neg_div,
        div_self (ne_of_gt (mul_pos ha hb))]
      ring

/-! ## Claim theorems -/

/-- C3: for every dataset_type outside the four recognized values, both
selector variants fail with the unsupported-dataset-type error and return
no callable. -/
theorem get_loss_func_unsupported_dataset (dataset_type : String)
    (loss_function : Option String)
    (h : dataset_type ∉ ["regression", "classification", "multiclass", "spectra"]) :
    legacy_get_loss_func dataset_type loss_function
      = .error (.unsupportedDatasetType dataset_type) ∧
    train_get_loss_func dataset_type loss_function
      = .error (.unsupportedDatasetType dataset_type) := by
  simp only [List.mem_cons, List.not_mem_nil, or_false, not_or] at h
  obtain ⟨h1, h2, h3, h4⟩ := h
  have b1 : (dataset_type == "regression") = false := beq_eq_false_iff_ne.mpr h1
  have b2 : (dataset_type == "classification") = false := beq_eq_false_iff_ne.mpr h2
  have b3 : (dataset_type == "multiclass") = false := beq_eq_false_iff_ne.mpr h3
  have b4 : (dataset_type == "spectra") = false := beq_eq_false_iff_ne.mpr h4
  constructor <;>
    simp [legacy_get_loss_func, train_get_loss_func, legacySupported, trainSupported,
      List.lookup, b1, b2, b3, b4]

/-- Witness for C3 at the concrete unrecognized dataset type "scaffold". -/
theorem get_loss_func_unsupported_dataset_witness :
    legacy_get_loss_func "scaffold" (some "mse")
      = .error (.unsupportedDatasetType "scaffold") ∧
    train_get_loss_func "scaffold" (some "mse")
      = .error (.unsupportedDatasetType "scaffold") :=
  get_loss_func_unsupported_dataset "scaffold" (some "mse") (by decide)

/-- C4: bounded_mse_loss on predictions=[0.5], targets=[1.0] returns [0]
when less_than_target=[True] (prediction clamped up to the target) and
[0.25] when less_than_target=[False] (no clamp). -/
theorem bounded_mse_examples :
    bounded_mse_row [1/2] [1] [true] [false] = [0] ∧
    bounded_mse_row [1/2] [1] [false] [false] = [1/4] ∧
    bounded_mse_loss [[1/2]] [[1]] [[true]] [[false]] = [[0]] ∧
    bounded_mse_loss [[1/2]] [[1]] [[false]] [[false]] = [[1/4]] := by
  norm_num [bounded_mse_loss, bounded_mse_row, zipWith3, zipWith4]

/-- C9: in wasserstein_loss the mask is applied only to model_spectra;
two calls that differ only in the target value at the masked-out second
position return different loss tensors. -/
theorem wasserstein_target_not_masked :
    wasserstein_loss [[1, 1]] [[1, 0]] [[true, false]] none = [[0, 0]] ∧
    wasserstein_loss [[1, 1]] [[1, 5]] [[true, false]] none = [[0, 5]] ∧
    wasserstein_loss [[1, 1]] [[1, 0]] [[true, false]] none
      ≠ wasserstein_loss [[1, 1]] [[1, 5]] [[true, false]] none := by
  norm_num [wasserstein_loss, wassersteinRow, zipWith3, cumsum, cumsumFrom, clampRow]

/-- C2 counterexample: in the train-registry variant of get_loss_func,
"regression" is recognized, yet an omitted (None) loss_function_name does
not return the MSE default entry; the call fails, and it fails with the
unsupported-loss-function error (the one that enumerates options, line 51
of train/loss_functions.py), which is a different error from
NoDefaultConfigured. -/
theorem train_selector_no_default_counterexample :
    train_get_loss_func "regression" none
      = .error (.unsupportedLossFunction none "regression") ∧
    train_get_loss_func "regression" none ≠ .ok .mseLoss ∧
    SelectorError.unsupportedLossFunction none "regression"
      ≠ SelectorError.noDefaultConfigured "regression" :=
  ⟨rfl, fun h => Except.noConfusion h, by decide⟩

/-- C2 amended: the legacy selector (chemprop/loss_functions.py) has a
default (None-keyed) entry for every recognized dataset type and returns
it when loss_function_name is omitted — MSE for regression, BCE-with-logits
for classification, cross-entropy for multiclass, SID for spectra — so it
never raises NoDefaultConfigured for a recognized dataset type; the train
selector (chemprop/train/loss_functions.py) has no default entries, and an
omitted loss_function_name fails for every recognized dataset type with
the unsupported-loss-function error rather than NoDefaultConfigured. -/
theorem get_loss_func_default_entries :
    legacy_get_loss_func "regression" none = .ok .mseLoss ∧
    legacy_get_loss_func "classification" none = .ok .bceWithLogitsLoss ∧
    legacy_get_loss_func "multiclass" none = .ok .crossEntropyLoss ∧
    legacy_get_loss_func "spectra" none = .ok .sid ∧
    train_get_loss_func "regression" none
      = .error (.unsupportedLossFunction none "regression") ∧
    train_get_loss_func "classification" none
      = .error (.unsupportedLossFunction none "classification") ∧
    train_get_loss_func "multiclass" none
      = .error (.unsupportedLossFunction none "multiclass") ∧
    train_get_loss_func "spectra" none
      = .error (.unsupportedLossFunction none "spectra") :=
  ⟨rfl, rfl, rfl, rfl, rfl, rfl, rfl, rfl⟩

/-- C1 counterexample: mcc_class_loss sums over the batch axis, so on a
(batch, tasks) = (2, 1) input it returns a tensor with one entry per task
column (1 element), not a tensor of the primary input's shape (2 rows):
the output's leading dimension differs from the input's. -/
theorem mcc_class_loss_shape_counterexample :
    (mcc_class_loss Rat.sqrt [[1], [0]] [[1], [0]] [1, 1] [[true], [true]]).length ≠
    ([[1], [0]] : List (List ℚ)).length := by
  simp [mcc_class_loss, mccCells, colSum, zipWith3, zipWith4]

/-- C7 counterexample: on the perfect-prediction batch
predictions = targets = [[1]] (one sample, one task, weight 1, full mask)
the task column has no negative example, so TN = FP = FN = 0 and the MCC
denominator sqrt((TP+FP)(TP+FN)(TN+FP)(TN+FN)) = sqrt 0 = 0; the loss is
1 - 0/0 = 1 under total rational division (IEEE floats produce NaN at the
same spot), not approximately 0 as the claim states. -/
theorem mcc_class_loss_perfect_counterexample :
    mcc_class_loss Rat.sqrt [[1]] [[1]] [1] [[true]] = [1] ∧ (1 : ℚ) ≠ 0 := by
  constructor
  · norm_num [mcc_class_loss, mccCells, colSum, zipWith3, zipWith4, boolQ]
  · norm_num

/-- C8 counterexample: with a threshold supplied, scale invariance in
model_spectra fails even on a fully-masked-in, strictly positive row:
for the row [1/2, 1] and threshold 7/10, the raw row is clamped to
[7/10, 1] while the doubled row [1, 2] is not clamped at all, so the two
calls normalize to different distributions and return different
Wasserstein losses ([3/34, 0] versus [1/6, 0]). -/
theorem scale_invariance_threshold_counterexample :
    wasserstein_loss [[1/2, 1]] [[1/2, 1/2]] [[true, true]] (some (7/10)) ≠
    wasserstein_loss (scaleRow 2 0 [[1/2, 1]]) [[1/2, 1/2]] [[true, true]]
      (some (7/10)) := by
  norm_num [wasserstein_loss, wassersteinRow, scaleRow, zipWith3, cumsum, cumsumFrom,
    clampRow, abs_of_nonneg]

set_option maxHeartbeats 1000000 in
/-- C5 counterexample: at model = target = [[0, 1]] (the row sums to 1,
the mask is all true, the threshold is omitted, entries are valid
probabilities) the float-faithful sid pipeline computes, at the first
cell, log(0/0) * 0 + log(0/0) * 0 = NaN — torch there divides 0 by 0,
takes log of the NaN and multiplies NaN by 0, all of which propagate
NaN — so the output is [[NaN, 0]], not an all-zero tensor even up to
tolerance. -/
theorem sid_zero_entry_counterexample :
    sid_lossF (fun _ => 0) [[.fin 0, .fin 1]] [[.fin 0, .fin 1]] [[true, true]] none
      = [[FQ.nan, FQ.fin 0]] ∧ FQ.nan ≠ FQ.fin 0 := by
  constructor
  · norm_num [sid_lossF, sidRowF, zipWith3, fsum, fadd, fmul, fdiv, flog]
  · exact fun h => FQ.noConfusion h

/-- C5 amended: when target_spectra is identical to model_spectra, every
row already sums to 1, the mask is all true and the threshold is
omitted, wasserstein_loss always returns the all-zero tensor, and
sid_loss returns the all-zero tensor provided additionally that every
entry is strictly positive (as the source docstring demands); the sid
conclusion holds both in the total-division ℚ model and in the
float-faithful FQ refinement, where a zero entry would instead produce
NaN (see the counterexample). -/
theorem sid_wasserstein_zero_on_identical_positive (log : ℚ → ℚ) (model : List (List ℚ))
    (hlog : log 1 = 0) (hsum : ∀ r ∈ model, r.sum = 1) :
    wasserstein_loss model model (model.map (fun r => r.map fun _ => true)) none
      = model.map (fun r => r.map fun _ => 0) ∧
    ((∀ r ∈ model, ∀ x ∈ r, 0 < x) →
      sid_loss log model model (model.map (fun r => r.map fun _ => true)) none
        = model.map (fun r => r.map fun _ => 0) ∧
      sid_lossF log (model.map (List.map FQ.fin)) (model.map (List.map FQ.fin))
        (model.map (fun r => r.map fun _ => true)) none
        = model.map (fun r => r.map fun _ => FQ.fin 0)) :=
  ⟨wasserstein_self_aux model hsum,
   fun hpos => ⟨sid_self_aux log hlog model hsum hpos,
     sidF_self_aux log hlog model hsum hpos⟩⟩

/-- Witness for the amended C5 on the normalized, strictly positive
batch [[1/2, 1/2]] with log instantiated by a function satisfying
log 1 = 0. -/
theorem sid_wasserstein_zero_on_identical_positive_witness :
    wasserstein_loss [[1/2, 1/2]] [[1/2, 1/2]] [[true, true]] none = [[0, 0]] ∧
    sid_loss (fun _ => 0) [[1/2, 1/2]] [[1/2, 1/2]] [[true, true]] none = [[0, 0]] ∧
    sid_lossF (fun _ => 0) [[FQ.fin (1/2), FQ.fin (1/2)]] [[FQ.fin (1/2), FQ.fin (1/2)]]
      [[true, true]] none = [[FQ.fin 0, FQ.fin 0]] := by
  have h := sid_wasserstein_zero_on_identical_positive (fun _ => 0) [[1/2, 1/2]] rfl
    (by intro r hr; simp only [List.mem_singleton] at hr; subst hr; norm_num)
  have hp : ∀ r ∈ ([[1/2, 1/2]] : List (List ℚ)), ∀ x ∈ r, 0 < x := by
    intro r hr x hx
    simp only [List.mem_singleton] at hr
    subst hr
    simp only [List.mem_cons, List.not_mem_nil, or_false] at hx
    rcases hx with rfl | rfl <;> norm_num
  exact ⟨h.1, (h.2 hp).1, (h.2 hp).2⟩

/-- C8 amended: with the threshold omitted (its default, None), scaling
one raw model_spectra row — fully masked in and strictly positive — by
any positive constant leaves both the sid_loss and the wasserstein_loss
output unchanged: the per-row normalization cancels the scale factor.
(With a threshold supplied the property fails; see the counterexample.) -/
theorem spectral_scale_invariance (log : ℚ → ℚ) (model target : List (List ℚ))
    (mask : List (List Bool)) (i : Nat) (c : ℚ) (hc : 0 < c)
    (hk : ∀ b ∈ mask.getD i [], b = true)
    (hpos : ∀ x ∈ model.getD i [], 0 < x)
    (hlen : (model.getD i []).length = (mask.getD i []).length) :
    sid_loss log (scaleRow c i model) target mask none
      = sid_loss log model target mask none ∧
    wasserstein_loss (scaleRow c i model) target mask none
      = wasserstein_loss model target mask none :=
  ⟨sid_scale_aux log c (ne_of_gt hc) i model target mask hk hlen,
   wasserstein_scale_aux c (ne_of_gt hc) i model target mask hk hlen⟩

/-- Witness for C8: row [1, 2] of a one-row batch scaled by 3. -/
theorem spectral_scale_invariance_witness :
    (0 : ℚ) < 3 ∧
    (sid_loss (fun _ => 0) (scaleRow 3 0 [[1, 2]]) [[1, 1]] [[true, true]] none
      = sid_loss (fun _ => 0) [[1, 2]] [[1, 1]] [[true, true]] none ∧
    wasserstein_loss (scaleRow 3 0 [[1, 2]]) [[1, 1]] [[true, true]] none
      = wasserstein_loss [[1, 2]] [[1, 1]] [[true, true]] none) :=
  ⟨by norm_num,
   spectral_scale_invariance (fun _ => 0) [[1, 2]] [[1, 1]] [[true, true]] 0 3
    (by norm_num) (by decide) (by norm_num) rfl⟩

/-- C10: every element of the tensor returned by bounded_mse_loss is at
most the corresponding element of the plain unreduced squared error
(predictions - targets)^2; the clamping never increases any per-element
loss. -/
theorem bounded_mse_le_mse :
    ∀ (P T : List (List ℚ)) (L G : List (List Bool)), shape2 T = shape2 P →
      shape2 L = shape2 P → shape2 G = shape2 P →
      List.Forall₂ (List.Forall₂ (· ≤ ·)) (bounded_mse_loss P T L G)
        (List.zipWith (fun pr tr => List.zipWith (fun p t => (p - t) ^ 2) pr tr) P T)
  | [], T, L, G, hT, _, _ => by
    rw [List.map_eq_nil_iff.mp hT]
    exact List.Forall₂.nil
  | pr :: P, T, L, G, hT, hL, hG => by
    cases T with
    | nil => simp [shape2] at hT
    | cons tr T =>
      cases L with
      | nil => simp [shape2] at hL
      | cons lr L =>
        cases G with
        | nil => simp [shape2] at hG
        | cons gr G =>
          simp only [shape2, List.map_cons, List.cons.injEq] at hT hL hG
          simp only [bounded_mse_loss, zipWith4_cons, List.zipWith_cons_cons]
          exact List.Forall₂.cons
            (bounded_mse_row_le pr tr lr gr hT.1 hL.1 hG.1)
            (bounded_mse_le_mse P T L G hT.2 hL.2 hG.2)

/-- Witness for C10 on a concrete 1-by-1 batch with no active bound. -/
theorem bounded_mse_le_mse_witness :
    List.Forall₂ (List.Forall₂ (· ≤ ·)) (bounded_mse_loss [[2]] [[1]] [[false]] [[false]])
      (List.zipWith (fun pr tr => List.zipWith (fun p t => (p - t) ^ 2) pr tr)
        [[2]] [[1]]) :=
  bounded_mse_le_mse [[2]] [[1]] [[false]] [[false]] rfl rfl rfl

/-- C1 amended: the elementwise losses bounded_mse_loss, sid_loss and
wasserstein_loss return tensors of the same shape as their primary input
(no implicit reduction), while mcc_class_loss sums over the batch axis
and returns a vector with one entry per task column; mcc_multiclass_loss
returns a single batch-global scalar (its embedding has result type ℚ,
a type-level fact that needs no theorem). -/
theorem loss_function_shapes (P T : List (List ℚ)) (L G : List (List Bool))
    (log sqrt : ℚ → ℚ) (M S : List (List ℚ)) (K : List (List Bool)) (th : Option ℚ)
    (P2 T2 : List (List ℚ)) (w : List ℚ) (K2 : List (List Bool)) (k : Nat)
    (hT : shape2 T = shape2 P) (hL : shape2 L = shape2 P) (hG : shape2 G = shape2 P)
    (hS : shape2 S = shape2 M) (hK : shape2 K = shape2 M)
    (hP2 : P2 ≠ []) (hP2r : ∀ r ∈ P2, r.length = k) (hT2r : ∀ r ∈ T2, r.length = k)
    (hK2r : ∀ r ∈ K2, r.length = k) (hT2 : T2.length = P2.length)
    (hw : w.length = P2.length) (hK2 : K2.length = P2.length) :
    shape2 (bounded_mse_loss P T L G) = shape2 P ∧
    shape2 (sid_loss log M S K th) = shape2 M ∧
    shape2 (wasserstein_loss M S K th) = shape2 M ∧
    (mcc_class_loss sqrt P2 T2 w K2).length = k :=
  ⟨shape2_bounded_mse P T L G hT hL hG,
   shape2_sid log th M S K hS hK,
   shape2_wasserstein th M S K hS hK,
   mcc_class_loss_length sqrt P2 T2 w K2 k hP2 hP2r hT2r hK2r hT2 hw hK2⟩

/-- Witness for the amended C1 at concrete inputs. -/
theorem loss_function_shapes_witness :
    shape2 (bounded_mse_loss [[1]] [[2]] [[true]] [[false]]) = shape2 ([[1]] : List (List ℚ)) ∧
    shape2 (sid_loss (fun _ => 0) [[1, 2]] [[3, 4]] [[true, false]] none)
      = shape2 ([[1, 2]] : List (List ℚ)) ∧
    shape2 (wasserstein_loss [[1, 2]] [[3, 4]] [[true, false]] none)
      = shape2 ([[1, 2]] : List (List ℚ)) ∧
    (mcc_class_loss Rat.sqrt [[1], [0]] [[1], [1]] [1, 1] [[true], [true]]).length = 1 :=
  loss_function_shapes [[1]] [[2]] [[true]] [[false]] (fun _ => 0) Rat.sqrt
    [[1, 2]] [[3, 4]] [[true, false]] none [[1], [0]] [[1], [1]] [1, 1] [[true], [true]] 1
    rfl rfl rfl rfl rfl (by simp) (by simp) (by simp) (by simp) rfl rfl rfl

/-- C7 amended: on a perfect-prediction batch (predictions = targets,
entries in {0,1}, weights 1, full mask) in which every task column has at
least one positive and at least one negative example (positive column
sums of T and of 1-T), mcc_class_loss is exactly 0 on every task column,
and on the anti-correlated batch (predictions = 1 - targets) it is
exactly 2 on every task column.  The sqrt parameter is any function that
is a genuine square root on squares of nonnegatives, as Rat.sqrt is. -/
theorem mcc_class_loss_perfect_and_anti (sqrt : ℚ → ℚ) (T : List (List ℚ)) (k : Nat)
    (hsqrt : ∀ x : ℚ, 0 ≤ x → sqrt (x * x) = x)
    (hval : ∀ r ∈ T, ∀ x ∈ r, x = 0 ∨ x = 1)
    (hk : ∀ r ∈ T, r.length = k) (hT : T ≠ [])
    (hpos : ∀ a ∈ colSum T, 0 < a)
    (hneg : ∀ b ∈ colSum (T.map (List.map (fun t => 1 - t))), 0 < b) :
    mcc_class_loss sqrt T T (List.replicate T.length 1)
        (T.map (fun r => r.map fun _ => true)) = List.replicate k 0 ∧
    mcc_class_loss sqrt (T.map (List.map (fun t => 1 - t))) T (List.replicate T.length 1)
        (T.map (fun r => r.map fun _ => true)) = List.replicate k 2 := by
  have e1 : T.map (List.map (fun t => t * t)) = T := by
    have h := matrix_map_congr (fun t => t * t) (fun t => t) T hval (by norm_num) (by norm_num)
    simpa [List.map_id'] using h
  have e2 : T.map (List.map (fun t => (1 - t) * t)) = T.map (List.map (fun _ => (0 : ℚ))) :=
    matrix_map_congr _ _ T hval (by norm_num) (by norm_num)
  have e3 : T.map (List.map (fun t => t * (1 - t))) = T.map (List.map (fun _ => (0 : ℚ))) :=
    matrix_map_congr _ _ T hval (by norm_num) (by norm_num)
  have e4 : T.map (List.map (fun t => (1 - t) * (1 - t))) = T.map (List.map (fun t => 1 - t)) :=
    matrix_map_congr _ _ T hval (by norm_num) (by norm_num)
  have e5 : T.map (List.map (fun t => t * (1 - (1 - t)))) = T := by
    have h := matrix_map_congr (fun t => t * (1 - (1 - t))) (fun t => t) T hval
      (by norm_num) (by norm_num)
    simpa [List.map_id'] using h
  have e6 : T.map (List.map (fun t => (1 - t) * (1 - (1 - t))))
      = T.map (List.map (fun _ => (0 : ℚ))) :=
    matrix_map_congr _ _ T hval (by norm_num) (by norm_num)
  have hz := colSum_map_zero k T hT hk
  have hA : (colSum T).length = k := colSum_length k T hT hk
  have hkB : ∀ r ∈ T.map (List.map fun t => 1 - t), r.length = k := by
    intro r hr
    rcases List.mem_map.mp hr with ⟨x, hx, rfl⟩
    simp [hk x hx]
  have hTB : T.map (List.map fun t => 1 - t) ≠ [] :=
    fun h => hT (List.map_eq_nil_iff.mp h)
  have hB : (colSum (T.map (List.map fun t => 1 - t))).length = k :=
    colSum_length k _ hTB hkB
  constructor
  · have c1 : mccCells (fun t p => t * p) T T (List.replicate T.length 1)
        (T.map (fun r => r.map fun _ => true)) = T := by
      rw [mccCells_self_true]
      simpa using e1
    have c2 : mccCells (fun t p => (1 - t) * p) T T (List.replicate T.length 1)
        (T.map (fun r => r.map fun _ => true)) = T.map (List.map (fun _ => (0 : ℚ))) := by
      rw [mccCells_self_true]
      simpa using e2
    have c3 : mccCells (fun t p => t * (1 - p)) T T (List.replicate T.length 1)
        (T.map (fun r => r.map fun _ => true)) = T.map (List.map (fun _ => (0 : ℚ))) := by
      rw [mccCells_self_true]
      simpa using e3
    have c4 : mccCells (fun t p => (1 - t) * (1 - p)) T T (List.replicate T.length 1)
        (T.map (fun r => r.map fun _ => true)) = T.map (List.map (fun t => 1 - t)) := by
      rw [mccCells_self_true]
      simpa using e4
    simp only [mcc_class_loss, c1, c2, c3, c4, hz]
    rw [← hA]
    exact mcc_final_perfect sqrt hsqrt (colSum T) _ (hB.trans hA.symm) hpos hneg
  · have d1 : mccCells (fun t p => t * p) (T.map (List.map (fun t => 1 - t))) T
        (List.replicate T.length 1) (T.map (fun r => r.map fun _ => true))
        = T.map (List.map (fun _ => (0 : ℚ))) := by
      rw [mccCells_map_left]
      simpa using e3
    have d2 : mccCells (fun t p => (1 - t) * p) (T.map (List.map (fun t => 1 - t))) T
        (List.replicate T.length 1) (T.map (fun r => r.map fun _ => true))
        = T.map (List.map (fun t => 1 - t)) := by
      rw [mccCells_map_left]
      simpa using e4
    have d3 : mccCells (fun t p => t * (1 - p)) (T.map (List.map (fun t => 1 - t))) T
        (List.replicate T.length 1) (T.map (fun r => r.map fun _ => true)) = T := by
      rw [mccCells_map_left]
      simpa using e5
    have d4 : mccCells (fun t p => (1 - t) * (1 - p)) (T.map (List.map (fun t => 1 - t))) T
        (List.replicate T.length 1) (T.map (fun r => r.map fun _ => true))
        = T.map (List.map (fun _ => (0 : ℚ))) := by
      rw [mccCells_map_left]
      simpa using e6
    simp only [mcc_class_loss, d1, d2, d3, d4, hz]
    rw [← hB]
    exact mcc_final_anti sqrt hsqrt _ (colSum T) (hA.trans hB.symm) hneg hpos

/-- Witness for the amended C7 on the batch T = [[1],[0]] with
sqrt = Rat.sqrt: loss [0] when predicting T and loss [2] when predicting
the flipped batch. -/
theorem mcc_class_loss_perfect_and_anti_witness :
    mcc_class_loss Rat.sqrt [[1], [0]] [[1], [0]] [1, 1] [[true], [true]] = [0] ∧
    mcc_class_loss Rat.sqrt (([[1], [0]] : List (List ℚ)).map (List.map (fun t => 1 - t)))
      [[1], [0]] [1, 1] [[true], [true]] = [2] :=
  mcc_class_loss_perfect_and_anti Rat.sqrt [[1], [0]] 1
    (fun x hx => by rw [Rat.sqrt_eq, abs_of_nonneg hx])
    (by intro r hr x hx
        simp only [List.mem_cons, List.not_mem_nil, or_false] at hr
        rcases hr with rfl | rfl
        · exact Or.inr (by simpa using hx)
        · exact Or.inl (by simpa using hx))
    (by simp) (by simp)
    (by intro a ha
        simp only [colSum, List.zipWith_cons_cons, List.zipWith_nil_left,
          List.mem_cons, List.not_mem_nil, or_false] at ha
        rw [ha]; norm_num)
    (by intro b hb
        simp only [List.map_cons, List.map_nil, colSum, List.zipWith_cons_cons,
          List.zipWith_nil_left, List.mem_cons, List.not_mem_nil, or_false] at hb
        rw [hb]; norm_num)

end Chemprop
